import Mathlib

/-!
Shallow embedding of the proximity-analysis core of
`social_distance_posenet.py` (the ProximityAnalyzer of the spec):
`find_keypoint`, `person_center`, `person_height`, `distance` and
`analyze_poses`, together with theorems settling the spec claims.

Pixel coordinates are modelled as exact rationals; the Euclidean
distance (Python `math.hypot`) lives in the reals.  A Python exception
raised by the code is modelled by `Except`: the unguarded
`sum(xs) / len(xs)` on an empty list raises `ZeroDivisionError`, and
`max` / `min` of an empty sequence raise `ValueError`.
-/

/-- Exceptions observable at the analyzer's computation sites.
`zeroDivisionError` and `valueError` are what the Python runtime raises
at the unguarded division and the empty `max`/`min`.
`invalidPoseError` is the error *named by the spec* for an empty pose;
the code never constructs it — it is included only so that the spec's
error-handling claim can be stated and compared against the code. -/
inductive PyError where
  | zeroDivisionError : PyError
  | valueError : PyError
  | invalidPoseError : PyError
deriving DecidableEq, Repr

/-- A detected keypoint: body-joint identifier and pixel coordinate.
Mirrors the fields `kp.ID`, `kp.x`, `kp.y` used by the source. -/
structure Keypoint where
  ID : ℕ
  x : ℚ
  y : ℚ
deriving DecidableEq, Repr

/-- A pose: the ordered keypoint collection of one detected person
(`pose.Keypoints` in the source). -/
structure Pose where
  Keypoints : List Keypoint
deriving DecidableEq, Repr

/-- `LEFT_HIP_ID = 11` from the source. -/
def LEFT_HIP_ID : ℕ := 11

/-- `RIGHT_HIP_ID = 12` from the source. -/
def RIGHT_HIP_ID : ℕ := 12

/-- Loop body of `find_keypoint`: scan the list in order, return the
first keypoint whose ID matches. -/
def findKpList (kpId : ℕ) : List Keypoint → Option Keypoint
  | [] => none
  | kp :: rest => if kp.ID = kpId then some kp else findKpList kpId rest

/-- `find_keypoint(pose, kp_id)`: return keypoint with given ID, or
`none` if not found (Python `None`). -/
def find_keypoint (pose : Pose) (kpId : ℕ) : Option Keypoint :=
  findKpList kpId pose.Keypoints

/-- `person_center(pose)`: midpoint of left/right hip when both are
present, otherwise the average of all keypoints.  The fallback divides
by `len(xs)`; on an empty keypoint list Python raises
`ZeroDivisionError` there, modelled by the `Except.error`. -/
def person_center (pose : Pose) : Except PyError (ℚ × ℚ) :=
  match find_keypoint pose LEFT_HIP_ID, find_keypoint pose RIGHT_HIP_ID with
  | some lh, some rh => .ok ((lh.x + rh.x) / 2, (lh.y + rh.y) / 2)
  | _, _ =>
      let xs := pose.Keypoints.map (·.x)
      let ys := pose.Keypoints.map (·.y)
      if xs.length = 0 then .error .zeroDivisionError
      else .ok (xs.sum / (xs.length : ℚ), ys.sum / (ys.length : ℚ))

/-- `person_height(pose)`: `max(ys) - min(ys)` over all keypoint
y-coordinates.  Python `max`/`min` of a non-empty list fold over the
tail; on an empty list they raise `ValueError`. -/
def person_height (pose : Pose) : Except PyError ℚ :=
  match pose.Keypoints.map (·.y) with
  | [] => .error .valueError
  | y :: ys => .ok (ys.foldl max y - ys.foldl min y)

/-- `distance(c1, c2)`: Euclidean distance `math.hypot(dx, dy)`. -/
noncomputable def distance (c1 c2 : ℚ × ℚ) : ℝ :=
  Real.sqrt (((c1.1 - c2.1 : ℚ) : ℝ) ^ 2 + ((c1.2 - c2.2 : ℚ) : ℝ) ^ 2)

/-- The per-pair record the inner loop of `analyze_poses` computes and
prints for persons `i` and `j`: absolute distance, guarded average
height, normalized distance, and the two violation flags. -/
structure PairVerdict where
  i : ℕ
  j : ℕ
  d_abs : ℝ
  avg_h : ℚ
  d_rel : ℝ
  abs_flag : Prop
  rel_flag : Prop

/-- One iteration of the inner loop of `analyze_poses`: build the pair
verdict for indices `(i, j)` from the centers and heights lists. -/
noncomputable def pair_verdict (centers : List (ℚ × ℚ)) (heights : List ℚ)
    (absThreshold relThreshold : ℝ) (i j : ℕ) : PairVerdict :=
  let dAbs := distance (centers.getD i (0, 0)) (centers.getD j (0, 0))
  let avgH : ℚ :=
    if 0 < heights.getD i 0 ∧ 0 < heights.getD j 0 then
      (heights.getD i 0 + heights.getD j 0) / 2
    else 1
  { i := i
    j := j
    d_abs := dAbs
    avg_h := avgH
    d_rel := dAbs / (avgH : ℝ)
    abs_flag := dAbs < absThreshold
    rel_flag := dAbs / (avgH : ℝ) < relThreshold }

/-- The index pairs visited by the nested loops
`for i in range(n): for j in range(i+1, n)`, in iteration order. -/
def pairIndices (n : ℕ) : List (ℕ × ℕ) :=
  (List.range n).flatMap fun i =>
    (List.range' (i + 1) (n - (i + 1))).map fun j => (i, j)

/-- The first loop of `analyze_poses`: for every pose, in input order,
compute its center and height and append them to `centers` / `heights`.
The first failing pose aborts the whole computation, as the
corresponding Python exception would. -/
def computeGeometry : List Pose → Except PyError (List (ℚ × ℚ) × List ℚ)
  | [] => .ok ([], [])
  | p :: ps =>
      match person_center p, person_height p, computeGeometry ps with
      | .ok c, .ok h, .ok (cs, hs) => .ok (c :: cs, h :: hs)
      | .error e, _, _ => .error e
      | .ok _, .error e, _ => .error e
      | .ok _, .ok _, .error e => .error e

/-- The result of `analyze_poses`: the aggregate flag, the per-person
centers and heights, and the sequence of per-pair verdicts the inner
loop computes (emitted as diagnostic text by the source). -/
structure AnalyzeResult where
  any_violence : Prop
  centers : List (ℚ × ℚ)
  heights : List ℚ
  pairs : List PairVerdict

/-- `analyze_poses(poses)` with the two CLI thresholds
(`args.distance`, `args.rel_threshold`) passed explicitly.  Empty input
short-circuits to `(False, [], [], [])`; otherwise centers and heights
are computed in input order, every pair `i < j` is scored, and
`any_violence` is accumulated across the pair loop starting from
`False`. -/
noncomputable def analyze_poses (poses : List Pose)
    (absThreshold relThreshold : ℝ) : Except PyError AnalyzeResult :=
  if poses.isEmpty then
    .ok ⟨False, [], [], []⟩
  else
    match computeGeometry poses with
    | .error e => .error e
    | .ok (centers, heights) =>
        let pairs := (pairIndices centers.length).map fun ij =>
          pair_verdict centers heights absThreshold relThreshold ij.1 ij.2
        .ok ⟨pairs.foldl (fun acc v => acc ∨ (v.abs_flag ∨ v.rel_flag)) False,
             centers, heights, pairs⟩

/-! ### Helper lemmas about `find_keypoint` -/

lemma findKpList_eq_none (kpId : ℕ) (l : List Keypoint)
    (h : ∀ k ∈ l, k.ID ≠ kpId) : findKpList kpId l = none := by
  induction l with
  | nil => rfl
  | cons kp rest ih =>
      simp only [findKpList]
      rw [if_neg (h kp (List.mem_cons_self kp rest))]
      exact ih fun k hk => h k (List.mem_cons_of_mem kp hk)

lemma findKpList_append_skip (kpId : ℕ) (l1 l2 : List Keypoint)
    (h : ∀ k ∈ l1, k.ID ≠ kpId) :
    findKpList kpId (l1 ++ l2) = findKpList kpId l2 := by
  induction l1 with
  | nil => rfl
  | cons kp rest ih =>
      simp only [List.cons_append, findKpList]
      rw [if_neg (h kp (List.mem_cons_self kp rest))]
      exact ih fun k hk => h k (List.mem_cons_of_mem kp hk)

lemma findKpList_first (kpId : ℕ) (l1 l2 : List Keypoint) (kp : Keypoint)
    (hkp : kp.ID = kpId) (h : ∀ k ∈ l1, k.ID ≠ kpId) :
    findKpList kpId (l1 ++ kp :: l2) = some kp := by
  rw [findKpList_append_skip kpId l1 _ h]
  simp [findKpList, hkp]

/-! ### Helper lemmas about `person_center` and `person_height` -/

lemma person_center_hips (p : Pose) (lh rh : Keypoint)
    (hl : find_keypoint p LEFT_HIP_ID = some lh)
    (hr : find_keypoint p RIGHT_HIP_ID = some rh) :
    person_center p = .ok ((lh.x + rh.x) / 2, (lh.y + rh.y) / 2) := by
  unfold person_center
  rw [hl, hr]

lemma person_center_fallback (p : Pose) (h : p.Keypoints ≠ [])
    (hnone : find_keypoint p LEFT_HIP_ID = none ∨
             find_keypoint p RIGHT_HIP_ID = none) :
    person_center p = .ok
      ((p.Keypoints.map (·.x)).sum / ((p.Keypoints.map (·.x)).length : ℚ),
       (p.Keypoints.map (·.y)).sum / ((p.Keypoints.map (·.y)).length : ℚ)) := by
  have hlen : ¬ (p.Keypoints.map (·.x)).length = 0 := by
    simpa [List.length_eq_zero] using h
  unfold person_center
  cases hl : find_keypoint p LEFT_HIP_ID with
  | none =>
      cases hr : find_keypoint p RIGHT_HIP_ID with
      | none => simp [hlen, h]
      | some rh => simp [hlen, h]
  | some lh =>
      cases hr : find_keypoint p RIGHT_HIP_ID with
      | none => simp [hlen, h]
      | some rh =>
          exfalso
          rcases hnone with h1 | h1
          · rw [hl] at h1; exact Option.noConfusion h1
          · rw [hr] at h1; exact Option.noConfusion h1

lemma person_center_isOk (p : Pose) (h : p.Keypoints ≠ []) :
    ∃ c, person_center p = .ok c := by
  cases hl : find_keypoint p LEFT_HIP_ID with
  | some lh =>
      cases hr : find_keypoint p RIGHT_HIP_ID with
      | some rh => exact ⟨_, person_center_hips p lh rh hl hr⟩
      | none => exact ⟨_, person_center_fallback p h (Or.inr hr)⟩
  | none => exact ⟨_, person_center_fallback p h (Or.inl hl)⟩

lemma person_height_eq (p : Pose) (k : Keypoint) (ks : List Keypoint)
    (hk : p.Keypoints = k :: ks) :
    person_height p = .ok ((ks.map (·.y)).foldl max k.y -
                           (ks.map (·.y)).foldl min k.y) := by
  unfold person_height
  rw [hk, List.map_cons]

lemma person_height_isOk (p : Pose) (h : p.Keypoints ≠ []) :
    ∃ x, person_height p = .ok x := by
  cases hk : p.Keypoints with
  | nil => exact absurd hk h
  | cons k ks => exact ⟨_, person_height_eq p k ks hk⟩

/-! ### Folded max / min over rationals -/

lemma left_le_foldl_max : ∀ (l : List ℚ) (a : ℚ), a ≤ l.foldl max a
  | [], a => le_refl a
  | b :: l, a => le_trans (le_max_left a b) (left_le_foldl_max l (max a b))

lemma mem_le_foldl_max : ∀ (l : List ℚ) (a : ℚ), ∀ z ∈ l, z ≤ l.foldl max a
  | b :: l, a, z, hz => by
      rcases List.mem_cons.mp hz with h | h
      · subst h
        exact le_trans (le_max_right a z) (left_le_foldl_max l (max a z))
      · exact mem_le_foldl_max l (max a b) z h

lemma foldl_max_mem : ∀ (l : List ℚ) (a : ℚ), l.foldl max a ∈ a :: l
  | [], a => List.mem_cons_self a []
  | b :: l, a => by
      rcases List.mem_cons.mp (foldl_max_mem l (max a b)) with h | h
      · rw [List.foldl_cons, h]
        rcases max_choice a b with hm | hm <;> rw [hm]
        · exact List.mem_cons_self _ _
        · exact List.mem_cons_of_mem _ (List.mem_cons_self _ _)
      · rw [List.foldl_cons]
        exact List.mem_cons_of_mem _ (List.mem_cons_of_mem _ h)

lemma foldl_min_le_left : ∀ (l : List ℚ) (a : ℚ), l.foldl min a ≤ a
  | [], a => le_refl a
  | b :: l, a => le_trans (foldl_min_le_left l (min a b)) (min_le_left a b)

lemma foldl_min_le_mem : ∀ (l : List ℚ) (a : ℚ), ∀ z ∈ l, l.foldl min a ≤ z
  | b :: l, a, z, hz => by
      rcases List.mem_cons.mp hz with h | h
      · subst h
        exact le_trans (foldl_min_le_left l (min a z)) (min_le_right a z)
      · exact foldl_min_le_mem l (min a b) z h

lemma foldl_min_mem : ∀ (l : List ℚ) (a : ℚ), l.foldl min a ∈ a :: l
  | [], a => List.mem_cons_self a []
  | b :: l, a => by
      rcases List.mem_cons.mp (foldl_min_mem l (min a b)) with h | h
      · rw [List.foldl_cons, h]
        rcases min_choice a b with hm | hm <;> rw [hm]
        · exact List.mem_cons_self _ _
        · exact List.mem_cons_of_mem _ (List.mem_cons_self _ _)
      · rw [List.foldl_cons]
        exact List.mem_cons_of_mem _ (List.mem_cons_of_mem _ h)

/-! ### The geometry loop of `analyze_poses` -/

lemma computeGeometry_ok :
    ∀ (poses : List Pose), (∀ p ∈ poses, p.Keypoints ≠ []) →
    ∃ cs hs, computeGeometry poses = .ok (cs, hs) ∧
      cs.length = poses.length ∧ hs.length = poses.length ∧
      ∀ i, i < poses.length →
        person_center (poses.getD i ⟨[]⟩) = .ok (cs.getD i (0, 0)) ∧
        person_height (poses.getD i ⟨[]⟩) = .ok (hs.getD i 0) := by
  intro poses
  induction poses with
  | nil =>
      intro _
      exact ⟨[], [], rfl, rfl, rfl, fun i hi => absurd hi (Nat.not_lt_zero i)⟩
  | cons p ps ih =>
      intro h
      obtain ⟨c, hc⟩ := person_center_isOk p (h p (List.mem_cons_self p ps))
      obtain ⟨t, hh⟩ := person_height_isOk p (h p (List.mem_cons_self p ps))
      obtain ⟨cs, hs, hcg, hlc, hlh, hidx⟩ :=
        ih fun q hq => h q (List.mem_cons_of_mem p hq)
      refine ⟨c :: cs, t :: hs, ?_, by simp [hlc], by simp [hlh], ?_⟩
      · unfold computeGeometry
        rw [hc, hh, hcg]
      · intro i hi
        cases i with
        | zero => simpa using ⟨hc, hh⟩
        | succ n =>
            simp only [List.getD_cons_succ]
            exact hidx n (Nat.lt_of_succ_lt_succ hi)

/-! ### The pair-index list of the nested loops -/

lemma list_sum_map_range (f : ℕ → ℕ) (n : ℕ) :
    ((List.range n).map f).sum = ∑ i in Finset.range n, f i := by
  induction n with
  | zero => simp
  | succ n ih =>
      rw [List.range_succ, List.map_append, List.sum_append,
        Finset.sum_range_succ, ih]
      simp

lemma pairIndices_length (n : ℕ) :
    (pairIndices n).length = n * (n - 1) / 2 := by
  have h1 : (pairIndices n).length =
      ((List.range n).map fun i => n - (i + 1)).sum := by
    simp [pairIndices, List.flatMap, List.length_flatten, Function.comp_def]
  rw [h1, list_sum_map_range]
  have h2 : ∑ i in Finset.range n, (n - (i + 1)) = ∑ i in Finset.range n, i := by
    calc ∑ i in Finset.range n, (n - (i + 1))
        = ∑ i in Finset.range n, (n - 1 - i) :=
          Finset.sum_congr rfl fun i _ => by omega
      _ = ∑ i in Finset.range n, i := Finset.sum_range_reflect (fun i => i) n
  rw [h2]
  exact Finset.sum_range_id n

lemma pairIndices_mem (n i j : ℕ) :
    (i, j) ∈ pairIndices n ↔ i < j ∧ j < n := by
  simp only [pairIndices, List.mem_flatMap, List.mem_map, List.mem_range,
    List.mem_range', Prod.mk.injEq]
  constructor
  · rintro ⟨a, ha, b, ⟨m, hm, hb⟩, rfl, rfl⟩
    omega
  · rintro ⟨hij, hjn⟩
    exact ⟨i, by omega, j, ⟨j - (i + 1), by omega, by omega⟩, rfl, rfl⟩

/-! ### The accumulated violation flag -/

lemma foldl_or_iff (l : List PairVerdict) (acc : Prop) :
    l.foldl (fun a v => a ∨ (v.abs_flag ∨ v.rel_flag)) acc ↔
      acc ∨ ∃ v ∈ l, v.abs_flag ∨ v.rel_flag := by
  induction l generalizing acc with
  | nil => simp
  | cons v l ih =>
      rw [List.foldl_cons, ih]
      constructor
      · rintro ((h | h) | ⟨w, hw, hf⟩)
        · exact Or.inl h
        · exact Or.inr ⟨v, List.mem_cons_self v l, h⟩
        · exact Or.inr ⟨w, List.mem_cons_of_mem v hw, hf⟩
      · rintro (h | ⟨w, hw, hf⟩)
        · exact Or.inl (Or.inl h)
        · rcases List.mem_cons.mp hw with rfl | hw2
          · exact Or.inl (Or.inr hf)
          · exact Or.inr ⟨w, hw2, hf⟩

/-! ### Reduction of `analyze_poses` on well-formed input -/

lemma analyze_poses_ok (poses : List Pose) (absT relT : ℝ)
    (hne : poses ≠ []) (cs : List (ℚ × ℚ)) (hs : List ℚ)
    (hcg : computeGeometry poses = .ok (cs, hs)) :
    analyze_poses poses absT relT = .ok
      ⟨(((pairIndices cs.length).map fun ij =>
          pair_verdict cs hs absT relT ij.1 ij.2).foldl
            (fun acc v => acc ∨ (v.abs_flag ∨ v.rel_flag)) False),
        cs, hs,
        (pairIndices cs.length).map fun ij =>
          pair_verdict cs hs absT relT ij.1 ij.2⟩ := by
  unfold analyze_poses
  rw [if_neg (by simpa using hne), hcg]

/-! ### Claim theorems -/

/-- C2: for the empty pose list, `analyze_poses` returns
`(False, [], [], [])` — no violation flag, and the centers, heights and
pair-verdict sequences are all empty. -/
theorem analyze_poses_empty (absT relT : ℝ) :
    analyze_poses [] absT relT = .ok ⟨False, [], [], []⟩ := rfl

/-- C3: for every pose with a non-empty keypoint collection,
`person_center` returns the coordinate-wise midpoint of the left-hip
(ID 11) and right-hip (ID 12) keypoints when both are present, and
otherwise the coordinate-wise arithmetic mean of all keypoints of the
pose.  Being a function of the pose, it is deterministic and pure. -/
theorem person_center_spec (pose : Pose) (h : pose.Keypoints ≠ []) :
    (∀ lh rh, find_keypoint pose LEFT_HIP_ID = some lh →
        find_keypoint pose RIGHT_HIP_ID = some rh →
        person_center pose = .ok ((lh.x + rh.x) / 2, (lh.y + rh.y) / 2)) ∧
    ((find_keypoint pose LEFT_HIP_ID = none ∨
      find_keypoint pose RIGHT_HIP_ID = none) →
        person_center pose = .ok
          ((pose.Keypoints.map (·.x)).sum / (pose.Keypoints.length : ℚ),
           (pose.Keypoints.map (·.y)).sum / (pose.Keypoints.length : ℚ))) :=
  ⟨fun lh rh hl hr => person_center_hips pose lh rh hl hr,
   fun hnone => by
      rw [person_center_fallback pose h hnone]
      simp [List.length_map]⟩

/-- C3 witness: a concrete pose carrying both hips, evaluated through
`person_center_spec`. -/
theorem person_center_spec_witness :
    (Pose.mk [⟨11, 4, 6⟩, ⟨12, 2, 0⟩]).Keypoints ≠ [] ∧
    person_center ⟨[⟨11, 4, 6⟩, ⟨12, 2, 0⟩]⟩ = .ok (3, 3) := by
  refine ⟨by decide, ?_⟩
  have h := (person_center_spec ⟨[⟨11, 4, 6⟩, ⟨12, 2, 0⟩]⟩ (by decide)).1
      ⟨11, 4, 6⟩ ⟨12, 2, 0⟩ rfl rfl
  rw [h]
  norm_num

/-- C4 counterexample: on the pose with zero keypoints the code raises
no `InvalidPoseError`; the center computation fails with
`ZeroDivisionError` — precisely the unguarded average of an empty
collection — and the height computation with `ValueError`. -/
theorem empty_pose_error_not_invalidPoseError :
    person_center ⟨[]⟩ = .error .zeroDivisionError ∧
    person_height ⟨[]⟩ = .error .valueError ∧
    person_center ⟨[]⟩ ≠ .error .invalidPoseError ∧
    person_height ⟨[]⟩ ≠ .error .invalidPoseError := by
  refine ⟨rfl, rfl, fun hcon => ?_, fun hcon => ?_⟩
  · rw [show person_center ⟨[]⟩ = .error .zeroDivisionError from rfl] at hcon
    exact Except.noConfusion hcon fun he => PyError.noConfusion he
  · rw [show person_height ⟨[]⟩ = .error .valueError from rfl] at hcon
    exact Except.noConfusion hcon fun he => PyError.noConfusion he

/-- C4 (amended): a pose with zero keypoints makes the center
computation fail with the `ZeroDivisionError` of the unguarded
average-of-empty-collection and the height computation fail with the
`ValueError` of an empty `max`/`min`; both fail loudly — no NaN or
undefined value is produced — but neither raises the spec's
`InvalidPoseError`. -/
theorem person_geometry_empty_pose_fails (pose : Pose)
    (h : pose.Keypoints = []) :
    person_center pose = .error .zeroDivisionError ∧
    person_height pose = .error .valueError := by
  obtain ⟨l⟩ := pose
  have hl : l = [] := h
  subst hl
  exact ⟨rfl, rfl⟩

/-- C4 witness: the amended statement evaluated on the empty pose. -/
theorem person_geometry_empty_pose_fails_witness :
    (Pose.mk []).Keypoints = [] ∧
    person_center ⟨[]⟩ = .error .zeroDivisionError ∧
    person_height ⟨[]⟩ = .error .valueError :=
  ⟨rfl, person_geometry_empty_pose_fails ⟨[]⟩ rfl⟩

/-- C5: for every pose with a non-empty keypoint collection,
`person_height` returns maximum y-coordinate minus minimum y-coordinate
over all keypoints; a pose with exactly one keypoint has height 0. -/
theorem person_height_spec (pose : Pose) (h : pose.Keypoints ≠ []) :
    (∃ M m : ℚ,
        M ∈ pose.Keypoints.map (·.y) ∧
        (∀ z ∈ pose.Keypoints.map (·.y), z ≤ M) ∧
        m ∈ pose.Keypoints.map (·.y) ∧
        (∀ z ∈ pose.Keypoints.map (·.y), m ≤ z) ∧
        person_height pose = .ok (M - m)) ∧
    (∀ k, pose.Keypoints = [k] → person_height pose = .ok 0) := by
  constructor
  · cases hk : pose.Keypoints with
    | nil => exact absurd hk h
    | cons k ks =>
        refine ⟨(ks.map (·.y)).foldl max k.y, (ks.map (·.y)).foldl min k.y,
          ?_, ?_, ?_, ?_, person_height_eq pose k ks hk⟩
        · rw [List.map_cons]
          exact foldl_max_mem (ks.map (·.y)) k.y
        · rw [List.map_cons]
          rintro z hz
          rcases List.mem_cons.mp hz with rfl | hz2
          · exact left_le_foldl_max _ _
          · exact mem_le_foldl_max _ _ z hz2
        · rw [List.map_cons]
          exact foldl_min_mem (ks.map (·.y)) k.y
        · rw [List.map_cons]
          rintro z hz
          rcases List.mem_cons.mp hz with rfl | hz2
          · exact foldl_min_le_left _ _
          · exact foldl_min_le_mem _ _ z hz2
  · intro k hk1
    rw [person_height_eq pose k [] hk1]
    simp

/-- C5 witness: a single-keypoint pose has height exactly 0. -/
theorem person_height_spec_witness :
    (Pose.mk [⟨0, 1, 5⟩]).Keypoints ≠ [] ∧
    person_height ⟨[⟨0, 1, 5⟩]⟩ = .ok 0 :=
  ⟨by decide, (person_height_spec ⟨[⟨0, 1, 5⟩]⟩ (by decide)).2 ⟨0, 1, 5⟩ rfl⟩

/-- Field equations of `pair_verdict`, all definitional. -/
lemma pair_verdict_fields (cs : List (ℚ × ℚ)) (hs : List ℚ) (a r : ℝ)
    (i j : ℕ) :
    (pair_verdict cs hs a r i j).i = i ∧
    (pair_verdict cs hs a r i j).j = j ∧
    (pair_verdict cs hs a r i j).d_abs =
      distance (cs.getD i (0, 0)) (cs.getD j (0, 0)) ∧
    (pair_verdict cs hs a r i j).avg_h =
      (if 0 < hs.getD i 0 ∧ 0 < hs.getD j 0 then
        (hs.getD i 0 + hs.getD j 0) / 2 else 1) ∧
    (pair_verdict cs hs a r i j).d_rel =
      (pair_verdict cs hs a r i j).d_abs /
        ((pair_verdict cs hs a r i j).avg_h : ℝ) ∧
    ((pair_verdict cs hs a r i j).abs_flag ↔
      (pair_verdict cs hs a r i j).d_abs < a) ∧
    ((pair_verdict cs hs a r i j).rel_flag ↔
      (pair_verdict cs hs a r i j).d_rel < r) :=
  ⟨rfl, rfl, rfl, rfl, rfl, Iff.rfl, Iff.rfl⟩

/-- C1: for every non-empty pose list of N well-formed poses,
`analyze_poses` evaluates exactly N*(N-1)/2 pair verdicts, one for each
index pair i < j, and the returned violation flag holds exactly when at
least one pair has its absolute or its relative flag set. -/
theorem analyze_poses_pairs_and_or (poses : List Pose) (absT relT : ℝ)
    (hne : poses ≠ []) (hkp : ∀ p ∈ poses, p.Keypoints ≠ []) :
    ∃ r : AnalyzeResult, analyze_poses poses absT relT = .ok r ∧
      r.pairs.length = poses.length * (poses.length - 1) / 2 ∧
      (r.pairs.map fun v => (v.i, v.j)) = pairIndices poses.length ∧
      (∀ i j : ℕ,
        (i, j) ∈ pairIndices poses.length ↔ i < j ∧ j < poses.length) ∧
      (r.any_violence ↔ ∃ v ∈ r.pairs, v.abs_flag ∨ v.rel_flag) := by
  obtain ⟨cs, hs, hcg, hlc, hlh, _⟩ := computeGeometry_ok poses hkp
  refine ⟨_, analyze_poses_ok poses absT relT hne cs hs hcg, ?_, ?_, ?_, ?_⟩
  · simp [List.length_map, pairIndices_length, hlc]
  · simp only [List.map_map, Function.comp_def]
    rw [hlc]
    have hid : (fun ij : ℕ × ℕ =>
        ((pair_verdict cs hs absT relT ij.1 ij.2).i,
         (pair_verdict cs hs absT relT ij.1 ij.2).j)) = fun ij => ij := by
      funext ij
      rfl
    rw [hid, List.map_id']
  · exact fun i j => pairIndices_mem poses.length i j
  · rw [foldl_or_iff]
    simp

/-- C1 witness: two people whose hips coincide pairwise, at the default
thresholds. -/
theorem analyze_poses_pairs_and_or_witness :
    (([Pose.mk [⟨11, 0, 0⟩, ⟨12, 0, 0⟩], Pose.mk [⟨11, 3, 4⟩, ⟨12, 3, 4⟩]] ≠
        ([] : List Pose)) ∧
      (∀ p ∈ [Pose.mk [⟨11, 0, 0⟩, ⟨12, 0, 0⟩], Pose.mk [⟨11, 3, 4⟩, ⟨12, 3, 4⟩]],
        p.Keypoints ≠ [])) ∧
    ∃ r : AnalyzeResult,
      analyze_poses
        [Pose.mk [⟨11, 0, 0⟩, ⟨12, 0, 0⟩], Pose.mk [⟨11, 3, 4⟩, ⟨12, 3, 4⟩]]
        150 (7 / 10) = .ok r ∧
      r.pairs.length = 1 ∧
      (r.pairs.map fun v => (v.i, v.j)) = pairIndices 2 ∧
      (∀ i j : ℕ, (i, j) ∈ pairIndices 2 ↔ i < j ∧ j < 2) ∧
      (r.any_violence ↔ ∃ v ∈ r.pairs, v.abs_flag ∨ v.rel_flag) :=
  ⟨⟨by decide, by decide⟩,
    analyze_poses_pairs_and_or
      [Pose.mk [⟨11, 0, 0⟩, ⟨12, 0, 0⟩], Pose.mk [⟨11, 3, 4⟩, ⟨12, 3, 4⟩]]
      150 (7 / 10) (by decide) (by decide)⟩

/-- C6: for every pair evaluated by `analyze_poses`, the average height
is the arithmetic mean of the two heights when both are strictly
positive and exactly 1 otherwise, so the normalized distance never
divides by zero or by a non-positive value. -/
theorem analyze_poses_avg_height_guard (poses : List Pose) (absT relT : ℝ)
    (hne : poses ≠ []) (hkp : ∀ p ∈ poses, p.Keypoints ≠ []) :
    ∃ r : AnalyzeResult, analyze_poses poses absT relT = .ok r ∧
      ∀ v ∈ r.pairs,
        (0 < r.heights.getD v.i 0 ∧ 0 < r.heights.getD v.j 0 →
          v.avg_h = (r.heights.getD v.i 0 + r.heights.getD v.j 0) / 2) ∧
        (¬(0 < r.heights.getD v.i 0 ∧ 0 < r.heights.getD v.j 0) →
          v.avg_h = 1) ∧
        0 < v.avg_h ∧
        v.d_rel = v.d_abs / (v.avg_h : ℝ) := by
  obtain ⟨cs, hs, hcg, hlc, hlh, _⟩ := computeGeometry_ok poses hkp
  refine ⟨_, analyze_poses_ok poses absT relT hne cs hs hcg, ?_⟩
  simp only [List.mem_map]
  rintro v ⟨ij, hij, rfl⟩
  obtain ⟨hi, hj, hd, havg, hrel, habs, hrf⟩ :=
    pair_verdict_fields cs hs absT relT ij.1 ij.2
  rw [hi, hj, hrel, havg]
  by_cases hpos : 0 < hs.getD ij.1 0 ∧ 0 < hs.getD ij.2 0
  · rw [if_pos hpos]
    refine ⟨fun _ => rfl, fun hc => absurd hpos hc, ?_, rfl⟩
    have h1 := hpos.1
    have h2 := hpos.2
    linarith
  · rw [if_neg hpos]
    exact ⟨fun hc => absurd hc hpos, fun _ => rfl, one_pos, rfl⟩

/-- C6 witness: two people, one of height 0 (single keypoint), at the
default thresholds. -/
theorem analyze_poses_avg_height_guard_witness :
    (([Pose.mk [⟨11, 0, 0⟩, ⟨12, 2, 6⟩], Pose.mk [⟨0, 50, 50⟩]] ≠
        ([] : List Pose)) ∧
      (∀ p ∈ [Pose.mk [⟨11, 0, 0⟩, ⟨12, 2, 6⟩], Pose.mk [⟨0, 50, 50⟩]],
        p.Keypoints ≠ [])) ∧
    ∃ r : AnalyzeResult,
      analyze_poses [Pose.mk [⟨11, 0, 0⟩, ⟨12, 2, 6⟩], Pose.mk [⟨0, 50, 50⟩]]
        150 (7 / 10) = .ok r ∧
      ∀ v ∈ r.pairs,
        (0 < r.heights.getD v.i 0 ∧ 0 < r.heights.getD v.j 0 →
          v.avg_h = (r.heights.getD v.i 0 + r.heights.getD v.j 0) / 2) ∧
        (¬(0 < r.heights.getD v.i 0 ∧ 0 < r.heights.getD v.j 0) →
          v.avg_h = 1) ∧
        0 < v.avg_h ∧
        v.d_rel = v.d_abs / (v.avg_h : ℝ) :=
  ⟨⟨by decide, by decide⟩,
    analyze_poses_avg_height_guard
      [Pose.mk [⟨11, 0, 0⟩, ⟨12, 2, 6⟩], Pose.mk [⟨0, 50, 50⟩]]
      150 (7 / 10) (by decide) (by decide)⟩

/-- C7: both violation comparisons are strict less-than, and a distance
exactly equal to its threshold is not a violation. -/
theorem analyze_poses_strict_thresholds (poses : List Pose) (absT relT : ℝ)
    (hne : poses ≠ []) (hkp : ∀ p ∈ poses, p.Keypoints ≠ []) :
    ∃ r : AnalyzeResult, analyze_poses poses absT relT = .ok r ∧
      ∀ v ∈ r.pairs,
        (v.abs_flag ↔ v.d_abs < absT) ∧
        (v.rel_flag ↔ v.d_rel < relT) ∧
        (v.d_abs = absT → ¬ v.abs_flag) ∧
        (v.d_rel = relT → ¬ v.rel_flag) := by
  obtain ⟨cs, hs, hcg, _, _, _⟩ := computeGeometry_ok poses hkp
  refine ⟨_, analyze_poses_ok poses absT relT hne cs hs hcg, ?_⟩
  simp only [List.mem_map]
  rintro v ⟨ij, hij, rfl⟩
  obtain ⟨hi, hj, hd, havg, hrel, habs, hrf⟩ :=
    pair_verdict_fields cs hs absT relT ij.1 ij.2
  refine ⟨habs, hrf, fun he hf => ?_, fun he hf => ?_⟩
  · rw [habs, he] at hf
    exact lt_irrefl absT hf
  · rw [hrf, he] at hf
    exact lt_irrefl relT hf

/-- C7 witness: two hip-bearing people at the default thresholds. -/
theorem analyze_poses_strict_thresholds_witness :
    (([Pose.mk [⟨11, 0, 0⟩, ⟨12, 0, 2⟩], Pose.mk [⟨11, 100, 0⟩, ⟨12, 100, 2⟩]] ≠
        ([] : List Pose)) ∧
      (∀ p ∈ [Pose.mk [⟨11, 0, 0⟩, ⟨12, 0, 2⟩],
              Pose.mk [⟨11, 100, 0⟩, ⟨12, 100, 2⟩]], p.Keypoints ≠ [])) ∧
    ∃ r : AnalyzeResult,
      analyze_poses
        [Pose.mk [⟨11, 0, 0⟩, ⟨12, 0, 2⟩], Pose.mk [⟨11, 100, 0⟩, ⟨12, 100, 2⟩]]
        150 (7 / 10) = .ok r ∧
      ∀ v ∈ r.pairs,
        (v.abs_flag ↔ v.d_abs < 150) ∧
        (v.rel_flag ↔ v.d_rel < 7 / 10) ∧
        (v.d_abs = 150 → ¬ v.abs_flag) ∧
        (v.d_rel = 7 / 10 → ¬ v.rel_flag) :=
  ⟨⟨by decide, by decide⟩,
    analyze_poses_strict_thresholds
      [Pose.mk [⟨11, 0, 0⟩, ⟨12, 0, 2⟩], Pose.mk [⟨11, 100, 0⟩, ⟨12, 100, 2⟩]]
      150 (7 / 10) (by decide) (by decide)⟩

/-- C9: for every non-empty list of well-formed poses, `analyze_poses`
computes centers and heights in input order: the returned sequences
have length N and position i carries exactly the center and height of
the i-th input pose, so the index is the correlation key between a
person and its geometry. -/
theorem analyze_poses_order_preserved (poses : List Pose) (absT relT : ℝ)
    (hne : poses ≠ []) (hkp : ∀ p ∈ poses, p.Keypoints ≠ []) :
    ∃ r : AnalyzeResult, analyze_poses poses absT relT = .ok r ∧
      r.centers.length = poses.length ∧
      r.heights.length = poses.length ∧
      ∀ i, i < poses.length →
        person_center (poses.getD i ⟨[]⟩) = .ok (r.centers.getD i (0, 0)) ∧
        person_height (poses.getD i ⟨[]⟩) = .ok (r.heights.getD i 0) := by
  obtain ⟨cs, hs, hcg, hlc, hlh, hidx⟩ := computeGeometry_ok poses hkp
  exact ⟨_, analyze_poses_ok poses absT relT hne cs hs hcg, hlc, hlh, hidx⟩

/-- C9 witness: a two-person frame at the default thresholds. -/
theorem analyze_poses_order_preserved_witness :
    (([Pose.mk [⟨11, 1, 2⟩, ⟨12, 3, 4⟩], Pose.mk [⟨5, 7, 9⟩]] ≠
        ([] : List Pose)) ∧
      (∀ p ∈ [Pose.mk [⟨11, 1, 2⟩, ⟨12, 3, 4⟩], Pose.mk [⟨5, 7, 9⟩]],
        p.Keypoints ≠ [])) ∧
    ∃ r : AnalyzeResult,
      analyze_poses [Pose.mk [⟨11, 1, 2⟩, ⟨12, 3, 4⟩], Pose.mk [⟨5, 7, 9⟩]]
        150 (7 / 10) = .ok r ∧
      r.centers.length = 2 ∧
      r.heights.length = 2 ∧
      ∀ i, i < 2 →
        person_center
            ([Pose.mk [⟨11, 1, 2⟩, ⟨12, 3, 4⟩], Pose.mk [⟨5, 7, 9⟩]].getD i ⟨[]⟩) =
          .ok (r.centers.getD i (0, 0)) ∧
        person_height
            ([Pose.mk [⟨11, 1, 2⟩, ⟨12, 3, 4⟩], Pose.mk [⟨5, 7, 9⟩]].getD i ⟨[]⟩) =
          .ok (r.heights.getD i 0) :=
  ⟨⟨by decide, by decide⟩,
    analyze_poses_order_preserved
      [Pose.mk [⟨11, 1, 2⟩, ⟨12, 3, 4⟩], Pose.mk [⟨5, 7, 9⟩]]
      150 (7 / 10) (by decide) (by decide)⟩

/-- C8: `person_center` is symmetric in hip ordering — swapping the
positions of the (first) left-hip and right-hip keypoints inside the
keypoint collection, identifiers kept intact, yields the identical
center. -/
theorem person_center_hip_swap (l1 l2 l3 : List Keypoint) (lh rh : Keypoint)
    (hlh : lh.ID = LEFT_HIP_ID) (hrh : rh.ID = RIGHT_HIP_ID)
    (h1 : ∀ k ∈ l1, k.ID ≠ LEFT_HIP_ID ∧ k.ID ≠ RIGHT_HIP_ID)
    (h2 : ∀ k ∈ l2, k.ID ≠ LEFT_HIP_ID ∧ k.ID ≠ RIGHT_HIP_ID) :
    person_center ⟨l1 ++ lh :: (l2 ++ rh :: l3)⟩ =
      person_center ⟨l1 ++ rh :: (l2 ++ lh :: l3)⟩ := by
  have hne : LEFT_HIP_ID ≠ RIGHT_HIP_ID := by decide
  have f11a : find_keypoint ⟨l1 ++ lh :: (l2 ++ rh :: l3)⟩ LEFT_HIP_ID =
      some lh := by
    unfold find_keypoint
    rw [findKpList_append_skip _ l1 _ fun k hk => (h1 k hk).1]
    simp [findKpList, hlh]
  have f12a : find_keypoint ⟨l1 ++ lh :: (l2 ++ rh :: l3)⟩ RIGHT_HIP_ID =
      some rh := by
    unfold find_keypoint
    rw [findKpList_append_skip _ l1 _ fun k hk => (h1 k hk).2]
    simp only [findKpList]
    rw [if_neg (by rw [hlh]; exact hne)]
    rw [findKpList_append_skip _ l2 _ fun k hk => (h2 k hk).2]
    simp [findKpList, hrh]
  have f11b : find_keypoint ⟨l1 ++ rh :: (l2 ++ lh :: l3)⟩ LEFT_HIP_ID =
      some lh := by
    unfold find_keypoint
    rw [findKpList_append_skip _ l1 _ fun k hk => (h1 k hk).1]
    simp only [findKpList]
    rw [if_neg (by rw [hrh]; exact hne.symm)]
    rw [findKpList_append_skip _ l2 _ fun k hk => (h2 k hk).1]
    simp [findKpList, hlh]
  have f12b : find_keypoint ⟨l1 ++ rh :: (l2 ++ lh :: l3)⟩ RIGHT_HIP_ID =
      some rh := by
    unfold find_keypoint
    rw [findKpList_append_skip _ l1 _ fun k hk => (h1 k hk).2]
    simp [findKpList, hrh]
  rw [person_center_hips _ lh rh f11a f12a, person_center_hips _ lh rh f11b f12b]

/-- C8 witness: a concrete pose whose hips are swapped in place. -/
theorem person_center_hip_swap_witness :
    (⟨11, 1, 2⟩ : Keypoint).ID = LEFT_HIP_ID ∧
    (⟨12, 3, 4⟩ : Keypoint).ID = RIGHT_HIP_ID ∧
    person_center ⟨[⟨0, 9, 9⟩] ++ ⟨11, 1, 2⟩ :: ([⟨5, 8, 8⟩] ++ ⟨12, 3, 4⟩ :: [])⟩ =
      person_center ⟨[⟨0, 9, 9⟩] ++ ⟨12, 3, 4⟩ :: ([⟨5, 8, 8⟩] ++ ⟨11, 1, 2⟩ :: [])⟩ :=
  ⟨rfl, rfl,
    person_center_hip_swap [⟨0, 9, 9⟩] [⟨5, 8, 8⟩] [] ⟨11, 1, 2⟩ ⟨12, 3, 4⟩
      rfl rfl (by decide) (by decide)⟩

/-- C10: `find_keypoint` scans the keypoint collection in order and
returns the first keypoint whose ID matches, or `none` when no keypoint
matches; with duplicate hip IDs, `person_center` therefore uses the
earliest matching keypoint. -/
theorem find_keypoint_first_match (pose : Pose) (kpId : ℕ) :
    ((∀ k ∈ pose.Keypoints, k.ID ≠ kpId) → find_keypoint pose kpId = none) ∧
    (∀ l1 kp l2, pose.Keypoints = l1 ++ kp :: l2 → kp.ID = kpId →
        (∀ k ∈ l1, k.ID ≠ kpId) → find_keypoint pose kpId = some kp) ∧
    (∀ lA lh lB rh, pose.Keypoints = lA ++ lh :: lB → lh.ID = LEFT_HIP_ID →
        (∀ k ∈ lA, k.ID ≠ LEFT_HIP_ID) →
        find_keypoint pose RIGHT_HIP_ID = some rh →
        person_center pose = .ok ((lh.x + rh.x) / 2, (lh.y + rh.y) / 2)) := by
  refine ⟨fun h => findKpList_eq_none kpId _ h, ?_, ?_⟩
  · intro l1 kp l2 hl hid h
    unfold find_keypoint
    rw [hl]
    exact findKpList_first kpId l1 l2 kp hid h
  · intro lA lh lB rh hl hid hA hfr
    have hfl : find_keypoint pose LEFT_HIP_ID = some lh := by
      unfold find_keypoint
      rw [hl]
      exact findKpList_first _ lA lB lh hid hA
    exact person_center_hips pose lh rh hfl hfr

/-- C10 witness: with two ID-11 keypoints, the earlier one is found and
used for the center. -/
theorem find_keypoint_first_match_witness :
    find_keypoint ⟨[⟨11, 1, 2⟩, ⟨11, 100, 100⟩, ⟨12, 3, 4⟩]⟩ LEFT_HIP_ID =
        some ⟨11, 1, 2⟩ ∧
    person_center ⟨[⟨11, 1, 2⟩, ⟨11, 100, 100⟩, ⟨12, 3, 4⟩]⟩ = .ok (2, 3) := by
  constructor
  · exact (find_keypoint_first_match
        ⟨[⟨11, 1, 2⟩, ⟨11, 100, 100⟩, ⟨12, 3, 4⟩]⟩ LEFT_HIP_ID).2.1
      [] ⟨11, 1, 2⟩ [⟨11, 100, 100⟩, ⟨12, 3, 4⟩] rfl rfl (by simp)
  · have h := (find_keypoint_first_match
        ⟨[⟨11, 1, 2⟩, ⟨11, 100, 100⟩, ⟨12, 3, 4⟩]⟩ LEFT_HIP_ID).2.2
      [] ⟨11, 1, 2⟩ [⟨11, 100, 100⟩, ⟨12, 3, 4⟩] ⟨12, 3, 4⟩ rfl rfl (by simp) rfl
    rw [h]
    norm_num
